import Mathlib

/-
Verification development for `squidpy/im/segment.py`.

The module orchestrates image segmentation: a backend (blob / watershed /
tensorflow model) is run per crop, the per-crop label arrays are renumbered
("reconciled") so that positive labels are globally unique, the crops are
stitched back together, and the result is stored as a new layer of the image
container.  External collaborators (skimage/scipy algorithms, the tensorflow
model, the `ImageContainer` cropping and stitching) are modelled as opaque
parameters or as call records; everything this file proves is about the
orchestration and reconciliation logic that lives in `segment.py` itself.
-/

namespace SquidpySegment

/-! ## Label reconciliation (`segment`, lines 248-254)

The loop is elementwise on each crop's label array, so a crop is represented
by the flattened list of its pixel values (numpy integers, modelled as `Int`).

```python
counter = 0
for i, x in enumerate(crops):
    crop_new = x
    num_segments = np.max(x)
    crop_new[crop_new > 0] = crop_new[crop_new > 0] + counter
    counter += num_segments
    crops[i] = xr.DataArray(crop_new[np.newaxis, :, :], dims=["mask", "y", "x"])
```
-/

/-- The per-pixel update `crop_new[crop_new > 0] = crop_new[crop_new > 0] + counter`:
pixels with value `> 0` are shifted by `counter`, all others are untouched. -/
def offsetPos (counter : Int) (v : Int) : Int :=
  if 0 < v then v + counter else v

/-- `np.max` on a flattened array.  `np.max` raises on an empty array, so the
`[]` case (returning 0) is unreachable for the crops `segment` produces;
theorems that depend on the maximum assume nonempty crops. -/
def npMax : List Int → Int
  | [] => 0
  | v :: vs => vs.foldl max v

/-- The reconciliation loop starting from a given value of `counter`:
each crop is updated elementwise with `offsetPos counter`, and `counter`
grows by the crop's pre-update maximum (`num_segments`, computed before the
in-place update in the source). -/
def reconcileFrom (counter : Int) : List (List Int) → List (List Int)
  | [] => []
  | x :: xs => x.map (offsetPos counter) :: reconcileFrom (counter + npMax x) xs

/-- The reconciliation pass of `segment`: the loop with `counter = 0`. -/
def reconcile (crops : List (List Int)) : List (List Int) :=
  reconcileFrom 0 crops

/-- The value of `counter` at the start of iteration `i`: the sum of the
pre-update maxima (`num_segments`) of all earlier crops. -/
def counterAt (crops : List (List Int)) (i : Nat) : Int :=
  ((crops.take i).map npMax).sum

/-- The set of positive ("segment") labels occurring in a label array;
`0` is the background convention. -/
def positiveLabels (xs : List Int) : Finset Int :=
  xs.toFinset.filter (fun v => 0 < v)

/-- The union of the positive label sets of a list of crops. -/
def allPositiveLabels (crops : List (List Int)) : Finset Int :=
  crops.foldr (fun x s => positiveLabels x ∪ s) ∅

/-- Pixel `j` of crop `i` (flattened indexing), as an `Option`. -/
def pix (crops : List (List Int)) (i j : Nat) : Option Int :=
  (crops[i]?).bind (fun r => r[j]?)

/-- A label array uses dense labels `1..n` with `0` as background:
every value is `0` or in `{1, ..., n}`, and every label in `{1, ..., n}`
actually occurs. -/
def denseLabels (x : List Int) (n : Nat) : Prop :=
  (∀ v ∈ x, v = 0 ∨ (1 ≤ v ∧ v ≤ (n : Int))) ∧
    positiveLabels x = Finset.Icc 1 (n : Int)

/-! ## Watershed variant (`SegmentationModelWatershed._segment`, lines 115-151)

```python
if geq:
    mask = arr >= thresh
else:
    mask = arr < thresh
distance = ndi.distance_transform_edt(1 - mask)
local_maxi = peak_local_max(distance, indices=False, footprint=np.ones((5, 5)), labels=1 - mask)
markers = ndi.label(local_maxi)[0]
return watershed(invert(arr), markers, mask=1 - mask)
```

The numeric externals (`distance_transform_edt`, `peak_local_max`, `ndi.label`,
`watershed`, all out of scope per the spec) are modelled by recording the
arguments the method passes to them: a Boolean array stands for the `0/1`
integer array actually passed, with `true` at the nonzero entries, which is
the region each of these skimage/scipy functions operates on.  Pixel
intensities are modelled as `ℚ`. -/

/-- `skimage.util.invert` on a float image (the default `signed_float=False`
case): `1 - image`. -/
def skInvert (q : ℚ) : ℚ := 1 - q

/-- The arguments `_segment` hands to the external algorithms:
the array given to `distance_transform_edt`, the footprint and the `labels`
restriction given to `peak_local_max`, and the elevation image and `mask`
given to `watershed` (whose markers are the labelled connected components of
the `peak_local_max` output). -/
structure WatershedCalls (m n : Nat) where
  edtArg : Fin m → Fin n → Bool
  peakFootprint : Nat × Nat
  peakLabelsArg : Fin m → Fin n → Bool
  wsImage : Fin m → Fin n → ℚ
  wsMaskArg : Fin m → Fin n → Bool

/-- The binarization `mask = arr >= thresh` (geq) / `mask = arr < thresh`. -/
def watershedMask {m n : Nat} (arr : Fin m → Fin n → ℚ) (thresh : ℚ) (geq : Bool) :
    Fin m → Fin n → Bool :=
  fun i j => if geq then decide (thresh ≤ arr i j) else decide (arr i j < thresh)

/-- The calls `SegmentationModelWatershed._segment` makes, from the source:
every external algorithm is applied to `1 - mask`, the complement of the
thresholded mask. -/
def watershedSegmentCalls {m n : Nat} (arr : Fin m → Fin n → ℚ) (thresh : ℚ)
    (geq : Bool) : WatershedCalls m n :=
  let mask := watershedMask arr thresh geq
  { edtArg := fun i j => !(mask i j)
    peakFootprint := (5, 5)
    peakLabelsArg := fun i j => !(mask i j)
    wsImage := fun i j => skInvert (arr i j)
    wsMaskArg := fun i j => !(mask i j) }

/-- The calls as claim C4 describes them: the foreground is the set of pixels
`>= thresh` when `geq` (`< thresh` otherwise); the distance transform is taken
over the background mask (the foreground's complement), while the local-maxima
search and the watershed flood are restricted to the foreground. -/
def watershedClaimedCalls {m n : Nat} (arr : Fin m → Fin n → ℚ) (thresh : ℚ)
    (geq : Bool) : WatershedCalls m n :=
  let foreground : Fin m → Fin n → Bool :=
    fun i j => if geq then decide (thresh ≤ arr i j) else decide (arr i j < thresh)
  { edtArg := fun i j => !(foreground i j)
    peakFootprint := (5, 5)
    peakLabelsArg := foreground
    wsImage := fun i j => skInvert (arr i j)
    wsMaskArg := foreground }

/-- The calls as the amended claim describes them: the thresholded set (pixels
`>= thresh` when `geq`, `< thresh` otherwise) is the *background*; the region
to segment is its complement, and the distance transform, the local-maxima
search and the watershed flood all operate on that complement. -/
def watershedAmendedCalls {m n : Nat} (arr : Fin m → Fin n → ℚ) (thresh : ℚ)
    (geq : Bool) : WatershedCalls m n :=
  let background : Fin m → Fin n → Bool :=
    fun i j => if geq then decide (thresh ≤ arr i j) else decide (arr i j < thresh)
  let region : Fin m → Fin n → Bool := fun i j => !(background i j)
  { edtArg := region
    peakFootprint := (5, 5)
    peakLabelsArg := region
    wsImage := fun i j => skInvert (arr i j)
    wsMaskArg := region }

/-- A concrete 1×1 image with the single pixel at intensity 1. -/
def arrC4 : Fin 1 → Fin 1 → ℚ := fun _ _ => 1

/-! ## Blob variant (`SegmentationModelBlob._segment`, lines 83-108)

```python
if invert:
    img = 0.0 - img
if self.model == "log":
    y = skimage.feature.blob_log(image=img, **kwargs)
elif self.model == "dog":
    y = skimage.feature.blob_dog(image=img, **kwargs)
elif self.model == "doh":
    y = skimage.feature.blob_doh(image=img, **kwargs)
else:
    raise ValueError("did not recognize self.model %s" % self.model)
return y
```

The three skimage detectors are external; they are passed in as parameters of
an arbitrary result type `β`, and raising is modelled with `Except`. -/

def blobSegment {m n : Nat} {β : Type} (model : String)
    (blobLog blobDog blobDoh : (Fin m → Fin n → ℚ) → β)
    (invert : Bool) (img : Fin m → Fin n → ℚ) : Except String β :=
  let img := if invert then fun i j => 0 - img i j else img
  if model = "log" then .ok (blobLog img)
  else if model = "dog" then .ok (blobDog img)
  else if model = "doh" then .ok (blobDoh img)
  else .error ("did not recognize self.model " ++ model)

/-! ## Orchestration (`segment`, lines 184-258)

The `ImageContainer` and the numeric backends are external collaborators.
`segment` is modelled as a function of: the crop list the container would
return from `crop_equally` (with channel selection folded into the per-crop
pixel data), the behaviour of the constructed backend on a crop (a fallible
function, since any backend exception propagates), the external stitcher
`uncrop_img`, and the container's current layers.  Interactions with the
container are additionally recorded as an effect trace, in the order they
happen, so that "no crop is read" and "no layer is added" are statable. -/

inductive SegmentationBackend where
  | blob
  | watershed
  | tensorflow
deriving DecidableEq

/-- The string value of each enum member (`model_group.s` in the source). -/
def SegmentationBackend.s : SegmentationBackend → String
  | .blob => "blob"
  | .watershed => "watershed"
  | .tensorflow => "tensorflow"

/-- Modelled from the spec: the enum `squidpy.constants._constants.SegmentationBackend`
is not among the sources; per the spec there are exactly three named variants
(blob-detection, threshold/distance-based, external-model), and resolving an
unrecognized selector value fails.  `SegmentationBackend(model_group)` on
line 231 is modelled as this partial parse. -/
def SegmentationBackend.parse (sel : String) : Option SegmentationBackend :=
  if sel = "blob" then some .blob
  else if sel = "watershed" then some .watershed
  else if sel = "tensorflow" then some .tensorflow
  else none

/-- The failures `segment` can surface: the `NotImplementedError`-style
configuration failure for an unrecognized selector, and a propagated backend
exception. -/
inductive SegErr where
  | notImplemented (selector : String)
  | delegated (msg : String)
deriving DecidableEq

/-- Observable interactions of `segment` with the image container. -/
inductive SegEffect where
  | cropEqually
  | addImg (key : String)
deriving DecidableEq

/-- The crop loop `[segmentation_model.segment(...) for x in crops]`: the
backend runs on each crop in order and the first exception aborts the whole
comprehension. -/
def runBackendAll {α β : Type} (f : α → Except String β) : List α → Except String (List β)
  | [] => .ok []
  | x :: xs =>
    match f x with
    | .error e => .error e
    | .ok y =>
      match runBackendAll f xs with
      | .error e => .error e
      | .ok ys => .ok (y :: ys)

/-- The `segment` orchestration: resolve the selector (constructing the chosen
backend, whose behaviour is the external parameter `backend`), read the crops
from the container, run the backend per crop, reconcile the labels, stitch via
the external `uncrop_img`, and only then add the result to the container under
`key_added` (default `"segmented_" + model_group.s`).  Returns the final
container layers (or the failure) together with the container-effect trace. -/
def segment {α σ : Type} (cropEqually : List α)
    (backend : SegmentationBackend → α → Except String (List Int))
    (stitch : List (List Int) → σ) (layers : List (String × σ))
    (modelGroup : String) (keyAdded : Option String) :
    Except SegErr (List (String × σ)) × List SegEffect :=
  match SegmentationBackend.parse modelGroup with
  | none => (.error (.notImplemented modelGroup), [])
  | some mg =>
    match runBackendAll (backend mg) cropEqually with
    | .error e => (.error (.delegated e), [.cropEqually])
    | .ok labelCrops =>
      let merged := stitch (reconcile labelCrops)
      let key := keyAdded.getD ("segmented_" ++ mg.s)
      (.ok (layers ++ [(key, merged)]), [.cropEqually, .addImg key])

/-! ## Segment-crop extraction (`segment_crops`, lines 261-292)

```python
segment_centres = [
    (
        np.mean(np.where(img.data[segmented_img_id] == i)[0]),
        np.mean(np.where(img.data[segmented_img_id] == i)[1]),
    )
    for i in np.sort(list(set(np.unique(img.data[segmented_img_id])) - {0}))
]
return [img.crop_center(x=int(xi), y=int(yi), xs=xs, ys=ys, img_id=img_id) for xi, yi in segment_centres]
```

The stored label layer is modelled as a two-dimensional integer array
`g : Fin m → Fin n → Int` (axis 0 = rows, axis 1 = columns, per the spec's
Label Array data model; the container's storage layout is external).
`np.where(g == i)` enumerates the matching indices in row-major order;
`np.mean` of an index list is its exact rational mean, and Python's `int()`
truncates toward zero.  `crop_center` is external, so a returned crop is
modelled as the request made to it: the centre actually passed, together with
the label it was computed from. -/

/-- All indices of an `m × n` array in row-major (C) order, as `np.where`
enumerates them. -/
def rowMajor (m n : Nat) : List (Fin m × Fin n) :=
  (List.finRange m) ×ˢ (List.finRange n)

/-- `np.where(g == v)`: the indices of the pixels holding value `v`. -/
def whereList {m n : Nat} (g : Fin m → Fin n → Int) (v : Int) :
    List (Fin m × Fin n) :=
  (rowMajor m n).filter (fun p => decide (g p.1 p.2 = v))

/-- `np.mean(np.where(g == v)[0])`: the mean row index of the pixels
holding `v`. -/
def npMeanRow {m n : Nat} (g : Fin m → Fin n → Int) (v : Int) : ℚ :=
  ((whereList g v).map (fun p => ((p.1 : Nat) : ℚ))).sum / ((whereList g v).length : ℚ)

/-- `np.mean(np.where(g == v)[1])`: the mean column index of the pixels
holding `v`. -/
def npMeanCol {m n : Nat} (g : Fin m → Fin n → Int) (v : Int) : ℚ :=
  ((whereList g v).map (fun p => ((p.2 : Nat) : ℚ))).sum / ((whereList g v).length : ℚ)

/-- Python's `int()` on a rational: truncation toward zero. -/
def pyInt (q : ℚ) : Int :=
  if 0 ≤ q then ⌊q⌋ else -⌊-q⌋

/-- `np.sort(list(set(np.unique(g)) - {0}))`: the distinct label values of the
array without `0`, in ascending order. -/
def segLabels {m n : Nat} (g : Fin m → Fin n → Int) : List Int :=
  (((Finset.univ : Finset (Fin m × Fin n)).image (fun p => g p.1 p.2)).erase 0).sort (· ≤ ·)

/-- A `crop_center` request: the centre coordinates passed to the container,
tagged with the label value the centre was computed for. -/
structure CropRequest where
  label : Int
  x : Int
  y : Int
deriving DecidableEq

/-- `segment_crops`: one `crop_center` request per distinct nonzero label, in
ascending label order, centred at the truncated mean index of the label's
pixels. -/
def segment_crops {m n : Nat} (g : Fin m → Fin n → Int) : List CropRequest :=
  (segLabels g).map (fun v => ⟨v, pyInt (npMeanRow g v), pyInt (npMeanCol g v)⟩)

/-- The claim-side centroid: the set of pixels equal to `v`. -/
def matchFinset {m n : Nat} (g : Fin m → Fin n → Int) (v : Int) :
    Finset (Fin m × Fin n) :=
  Finset.univ.filter (fun p => g p.1 p.2 = v)

/-- The claim-side centroid row: the mean row index over the pixel set. -/
def centroidRow {m n : Nat} (g : Fin m → Fin n → Int) (v : Int) : ℚ :=
  (∑ p ∈ matchFinset g v, ((p.1 : Nat) : ℚ)) / ((matchFinset g v).card : ℚ)

/-- The claim-side centroid column: the mean column index over the pixel set. -/
def centroidCol {m n : Nat} (g : Fin m → Fin n → Int) (v : Int) : ℚ :=
  (∑ p ∈ matchFinset g v, ((p.2 : Nat) : ℚ)) / ((matchFinset g v).card : ℚ)

/-- The 2×2 label image with label 1 at pixels (0,0), (1,0) and (1,1):
its centroid row is 2/3, which truncation and rounding send to different
integers. -/
def gThirds : Fin 2 → Fin 2 → Int :=
  fun i j => if i = 0 ∧ j = 1 then 0 else 1

/-- The 6×11 label image whose only segment is the single pixel at
(row 5, col 10). -/
def gSingle : Fin 6 → Fin 11 → Int :=
  fun i j => if i = 5 ∧ j = 10 then 1 else 0

/-! ### Basic lemmas about `npMax` and the loop -/

lemma le_foldl_max (l : List Int) (a : Int) : a ≤ l.foldl max a := by
  induction l generalizing a with
  | nil => exact le_refl a
  | cons b l ih => exact le_trans (le_max_left a b) (ih (max a b))

lemma mem_le_foldl_max (l : List Int) (a : Int) : ∀ v ∈ l, v ≤ l.foldl max a := by
  induction l generalizing a with
  | nil => intro v hv; cases hv
  | cons b l ih =>
    intro v hv
    rcases List.mem_cons.mp hv with h | h
    · subst h
      exact le_trans (le_max_right a v) (le_foldl_max l (max a v))
    · exact ih (max a b) v h

lemma foldl_max_mem (l : List Int) (a : Int) : l.foldl max a = a ∨ l.foldl max a ∈ l := by
  induction l generalizing a with
  | nil => exact Or.inl rfl
  | cons b l ih =>
    rcases ih (max a b) with h | h
    · rcases max_choice a b with hm | hm
      · exact Or.inl (by rw [List.foldl_cons, h, hm])
      · exact Or.inr (by rw [List.foldl_cons, h, hm]; exact List.mem_cons_self b l)
    · exact Or.inr (List.mem_cons_of_mem _ h)

/-- Every element of a label array is bounded by its `np.max`. -/
lemma le_npMax {x : List Int} : ∀ v ∈ x, v ≤ npMax x := by
  intro v hv
  cases x with
  | nil => cases hv
  | cons a l =>
    rcases List.mem_cons.mp hv with h | h
    · subst h; exact le_foldl_max l v
    · exact mem_le_foldl_max l a v h

/-- `np.max` of a nonempty array is attained by some element. -/
lemma npMax_mem {x : List Int} (hx : x ≠ []) : npMax x ∈ x := by
  cases x with
  | nil => exact absurd rfl hx
  | cons a l =>
    rcases foldl_max_mem l a with h | h
    · simp [npMax, h]
    · exact List.mem_cons_of_mem _ (by simpa [npMax] using h)

/-- `np.max` of a nonempty array of nonnegative values is nonnegative. -/
lemma npMax_nonneg {x : List Int} (hx : x ≠ []) (hnn : ∀ v ∈ x, 0 ≤ v) :
    0 ≤ npMax x :=
  hnn _ (npMax_mem hx)

lemma counterAt_zero (crops : List (List Int)) : counterAt crops 0 = 0 := by
  simp [counterAt]

lemma counterAt_cons_succ (x : List Int) (crops : List (List Int)) (i : Nat) :
    counterAt (x :: crops) (i + 1) = npMax x + counterAt crops i := by
  simp [counterAt, List.take_succ_cons]

/-- The loop result at index `i`: crop `i` mapped with the counter accumulated
over the earlier crops. -/
lemma reconcileFrom_getElem? (c : Int) (crops : List (List Int)) (i : Nat) :
    (reconcileFrom c crops)[i]? =
      (crops[i]?).map (List.map (offsetPos (c + counterAt crops i))) := by
  induction crops generalizing c i with
  | nil => simp [reconcileFrom]
  | cons x xs ih =>
    cases i with
    | zero => simp [reconcileFrom, counterAt_zero]
    | succ i =>
      simp only [reconcileFrom, List.getElem?_cons_succ, ih (c + npMax x) i,
        counterAt_cons_succ]
      ring_nf

lemma reconcile_getElem? (crops : List (List Int)) (i : Nat) :
    (reconcile crops)[i]? = (crops[i]?).map (List.map (offsetPos (counterAt crops i))) := by
  simpa using reconcileFrom_getElem? 0 crops i

/-- Pixelwise description of the reconciliation pass. -/
lemma pix_reconcile (crops : List (List Int)) (i j : Nat) :
    pix (reconcile crops) i j = (pix crops i j).map (offsetPos (counterAt crops i)) := by
  unfold pix
  rw [reconcile_getElem?]
  cases crops[i]? with
  | none => rfl
  | some r => simp [List.getElem?_map]

/-! ### Positive label sets under the offset map -/

lemma mem_positiveLabels {x : List Int} {w : Int} :
    w ∈ positiveLabels x ↔ w ∈ x ∧ 0 < w := by
  simp [positiveLabels, Finset.mem_filter, List.mem_toFinset]

lemma allPositiveLabels_nil : allPositiveLabels [] = ∅ := rfl

lemma allPositiveLabels_cons (x : List Int) (xs : List (List Int)) :
    allPositiveLabels (x :: xs) = positiveLabels x ∪ allPositiveLabels xs := rfl

lemma mem_allPositiveLabels {crops : List (List Int)} {w : Int} :
    w ∈ allPositiveLabels crops ↔ ∃ x ∈ crops, w ∈ positiveLabels x := by
  induction crops with
  | nil => simp [allPositiveLabels_nil]
  | cons x xs ih => simp [allPositiveLabels_cons, Finset.mem_union, ih]

/-- Every positive label of an offset crop is strictly above the offset. -/
lemma offset_pos_gt {x : List Int} {c w : Int}
    (hw : w ∈ positiveLabels (x.map (offsetPos c))) : c < w := by
  rcases mem_positiveLabels.mp hw with ⟨hmem, hpos⟩
  rcases List.mem_map.mp hmem with ⟨v, _, hv⟩
  by_cases h : 0 < v
  · have : w = v + c := by rw [← hv, offsetPos, if_pos h]
    omega
  · have : w = v := by rw [← hv, offsetPos, if_neg h]
    omega

/-- Every positive label of an offset crop is at most `offset + np.max`. -/
lemma offset_pos_le {x : List Int} {c w : Int}
    (hw : w ∈ positiveLabels (x.map (offsetPos c))) : w ≤ c + npMax x := by
  rcases mem_positiveLabels.mp hw with ⟨hmem, hpos⟩
  rcases List.mem_map.mp hmem with ⟨v, hvx, hv⟩
  have hle := le_npMax v hvx
  by_cases h : 0 < v
  · have : w = v + c := by rw [← hv, offsetPos, if_pos h]
    omega
  · have : w = v := by rw [← hv, offsetPos, if_neg h]
    omega

/-- All positive labels produced by the loop started at `counter = c` lie
strictly above `c` (the counter only ever grows). -/
lemma reconcileFrom_pos_gt {crops : List (List Int)} {c w : Int}
    (h1 : ∀ x ∈ crops, x ≠ []) (h2 : ∀ x ∈ crops, ∀ v ∈ x, 0 ≤ v)
    (hw : w ∈ allPositiveLabels (reconcileFrom c crops)) : c < w := by
  induction crops generalizing c with
  | nil => simp [reconcileFrom, allPositiveLabels_nil] at hw
  | cons x xs ih =>
    rw [reconcileFrom, allPositiveLabels_cons, Finset.mem_union] at hw
    rcases hw with hw | hw
    · exact offset_pos_gt hw
    · have hx0 : (0 : Int) ≤ npMax x :=
        npMax_nonneg (h1 x (List.mem_cons_self x xs)) (h2 x (List.mem_cons_self x xs))
      have := ih (fun y hy => h1 y (List.mem_cons_of_mem x hy))
        (fun y hy => h2 y (List.mem_cons_of_mem x hy)) hw
      omega

lemma subset_allPositiveLabels {crops : List (List Int)} {s : Finset Int}
    (hs : s ∈ crops.map positiveLabels) : s ⊆ allPositiveLabels crops := by
  rcases List.mem_map.mp hs with ⟨x, hx, rfl⟩
  intro w hw
  exact mem_allPositiveLabels.mpr ⟨x, hx, hw⟩

/-- The positive label sets of the crops produced by the loop are pairwise
disjoint, for any starting counter. -/
lemma reconcileFrom_pairwise_disjoint {crops : List (List Int)} (c : Int)
    (h1 : ∀ x ∈ crops, x ≠ []) (h2 : ∀ x ∈ crops, ∀ v ∈ x, 0 ≤ v) :
    List.Pairwise (fun s t => Disjoint s t)
      ((reconcileFrom c crops).map positiveLabels) := by
  induction crops generalizing c with
  | nil => simp [reconcileFrom]
  | cons x xs ih =>
    rw [reconcileFrom, List.map_cons, List.pairwise_cons]
    have h1' : ∀ y ∈ xs, y ≠ [] := fun y hy => h1 y (List.mem_cons_of_mem x hy)
    have h2' : ∀ y ∈ xs, ∀ v ∈ y, 0 ≤ v := fun y hy => h2 y (List.mem_cons_of_mem x hy)
    refine ⟨fun t ht => Finset.disjoint_left.mpr ?_, ih (c + npMax x) h1' h2'⟩
    intro w hws hwt
    have hle : w ≤ c + npMax x := offset_pos_le hws
    have hgt : c + npMax x < w :=
      reconcileFrom_pos_gt h1' h2' (subset_allPositiveLabels ht hwt)
    omega

/-! ### The dense case (claim C1) -/

/-- For a nonempty dense label array, `np.max` is exactly `n`. -/
lemma npMax_of_dense {x : List Int} {n : Nat} (hx : x ≠ [])
    (hd : denseLabels x n) : npMax x = (n : Int) := by
  obtain ⟨hrange, hpos⟩ := hd
  have hmem := npMax_mem hx
  have hub : npMax x ≤ (n : Int) := by
    rcases hrange _ hmem with h | h <;> omega
  rcases Nat.eq_zero_or_pos n with hn | hn
  · subst hn
    have : npMax x = 0 ∨ (1 ≤ npMax x ∧ npMax x ≤ ((0 : Nat) : Int)) := hrange _ hmem
    omega
  · have hn' : (n : Int) ∈ positiveLabels x := by
      rw [hpos, Finset.mem_Icc]
      omega
    have := le_npMax (n : Int) (mem_positiveLabels.mp hn').1
    omega

/-- Offsetting a dense array by `c ≥ 0` shifts its positive label set to the
contiguous block `{c+1, ..., c+n}`. -/
lemma positiveLabels_map_dense {x : List Int} {n : Nat} {c : Int} (hc : 0 ≤ c)
    (hd : denseLabels x n) :
    positiveLabels (x.map (offsetPos c)) = Finset.Icc (c + 1) (c + (n : Int)) := by
  obtain ⟨hrange, hpos⟩ := hd
  ext w
  rw [mem_positiveLabels, Finset.mem_Icc]
  constructor
  · rintro ⟨hmem, hwpos⟩
    rcases List.mem_map.mp hmem with ⟨v, hvx, hv⟩
    rcases hrange v hvx with h0 | h1
    · subst h0
      rw [offsetPos, if_neg (by omega)] at hv
      omega
    · rw [offsetPos, if_pos (by omega)] at hv
      omega
  · rintro ⟨hlo, hhi⟩
    have hv : w - c ∈ positiveLabels x := by
      rw [hpos, Finset.mem_Icc]
      omega
    rcases mem_positiveLabels.mp hv with ⟨hvx, hvpos⟩
    refine ⟨List.mem_map.mpr ⟨w - c, hvx, ?_⟩, by omega⟩
    rw [offsetPos, if_pos hvpos]
    omega

/-- In the dense case, the loop started at counter `c ≥ 0` produces exactly
the block `{c+1, ..., c + Σ nᵢ}` of positive labels. -/
lemma reconcileFrom_dense_union {crops : List (List Int)} {ns : List Nat} {c : Int}
    (hc : 0 ≤ c) (h1 : ∀ x ∈ crops, x ≠ []) (hd : List.Forall₂ denseLabels crops ns) :
    allPositiveLabels (reconcileFrom c crops) = Finset.Icc (c + 1) (c + (ns.sum : Int)) := by
  induction hd generalizing c with
  | nil =>
    simp only [reconcileFrom, allPositiveLabels_nil, List.sum_nil, Nat.cast_zero, add_zero]
    exact (Finset.Icc_eq_empty (by omega)).symm
  | @cons x n xs ns hxn htl ih =>
    rw [reconcileFrom, allPositiveLabels_cons]
    have hxne : x ≠ [] := h1 x (List.mem_cons_self x xs)
    have hmax : npMax x = (n : Int) := npMax_of_dense hxne hxn
    rw [positiveLabels_map_dense hc hxn, hmax,
      ih (by omega) (fun y hy => h1 y (List.mem_cons_of_mem x hy))]
    ext w
    simp only [Finset.mem_union, Finset.mem_Icc, List.sum_cons, Nat.cast_add]
    omega

/-- Dense label arrays have nonnegative entries. -/
lemma dense_nonneg {crops : List (List Int)} {ns : List Nat}
    (hd : List.Forall₂ denseLabels crops ns) :
    ∀ x ∈ crops, ∀ v ∈ x, 0 ≤ v := by
  intro x hx v hv
  induction hd with
  | nil => cases hx
  | @cons y n ys ns hyn _ ih =>
    rcases List.mem_cons.mp hx with h | h
    · subst h
      rcases hyn.1 v hv with h0 | h1 <;> omega
    · exact ih h

/-! ### Counter monotonicity -/

lemma counterAt_nil (i : Nat) : counterAt [] i = 0 := by
  simp [counterAt]

lemma counterAt_le_succ {crops : List (List Int)}
    (h1 : ∀ x ∈ crops, x ≠ []) (h2 : ∀ x ∈ crops, ∀ v ∈ x, 0 ≤ v) (i : Nat) :
    counterAt crops i ≤ counterAt crops (i + 1) := by
  induction crops generalizing i with
  | nil => simp [counterAt_nil]
  | cons x xs ih =>
    have hx0 : (0 : Int) ≤ npMax x :=
      npMax_nonneg (h1 x (List.mem_cons_self x xs)) (h2 x (List.mem_cons_self x xs))
    cases i with
    | zero =>
      rw [counterAt_zero, counterAt_cons_succ, counterAt_zero]
      omega
    | succ i =>
      rw [counterAt_cons_succ, counterAt_cons_succ]
      have := ih (fun y hy => h1 y (List.mem_cons_of_mem x hy))
        (fun y hy => h2 y (List.mem_cons_of_mem x hy)) i
      omega

lemma counterAt_mono {crops : List (List Int)}
    (h1 : ∀ x ∈ crops, x ≠ []) (h2 : ∀ x ∈ crops, ∀ v ∈ x, 0 ≤ v)
    {i j : Nat} (hij : i ≤ j) : counterAt crops i ≤ counterAt crops j := by
  induction j with
  | zero =>
    have : i = 0 := Nat.le_zero.mp hij
    subst this
    exact le_refl _
  | succ j ih =>
    rcases Nat.lt_or_ge i (j + 1) with h | h
    · exact le_trans (ih (Nat.lt_succ_iff.mp h)) (counterAt_le_succ h1 h2 j)
    · have : i = j + 1 := Nat.le_antisymm hij h
      subst this
      exact le_refl _

lemma counterAt_nonneg {crops : List (List Int)}
    (h1 : ∀ x ∈ crops, x ≠ []) (h2 : ∀ x ∈ crops, ∀ v ∈ x, 0 ≤ v) (i : Nat) :
    0 ≤ counterAt crops i := by
  have := counterAt_mono h1 h2 (Nat.zero_le i)
  rw [counterAt_zero] at this
  exact this

lemma offsetPos_inj {c a b : Int} (hc : 0 ≤ c) (ha : 0 ≤ a) (hb : 0 ≤ b) :
    offsetPos c a = offsetPos c b ↔ a = b := by
  unfold offsetPos
  split_ifs <;> omega

/-! ## Claim theorems: reconciliation -/

/-- C1: for crops whose label arrays use dense labels `1..nᵢ` (0 = background),
after the reconciliation pass in `segment` the positive label sets of the crops
are pairwise disjoint and their union is exactly `{1, ..., Σ nᵢ}`; in
particular, for the 2-crop tiling with local labels `{0,1,2}` and `{0,1}`,
crop A is unchanged and crop B's labels become `{0,3}`. -/
theorem reconcile_dense_partition :
    (∀ (crops : List (List Int)) (ns : List Nat),
        (∀ x ∈ crops, x ≠ []) → List.Forall₂ denseLabels crops ns →
        List.Pairwise (fun s t => Disjoint s t) ((reconcile crops).map positiveLabels) ∧
          allPositiveLabels (reconcile crops) = Finset.Icc 1 (ns.sum : Int)) ∧
      reconcile [[0, 1, 2], [0, 1]] = [[0, 1, 2], [0, 3]] := by
  constructor
  · intro crops ns h1 hd
    refine ⟨reconcileFrom_pairwise_disjoint 0 h1 (dense_nonneg hd), ?_⟩
    have h := reconcileFrom_dense_union (le_refl (0 : Int)) h1 hd
    simpa [reconcile] using h
  · decide

/-- Witness for C1 at the concrete 2-crop tiling of the claim. -/
theorem reconcile_dense_partition_witness :
    (∀ x ∈ ([[0, 1, 2], [0, 1]] : List (List Int)), x ≠ []) ∧
      List.Forall₂ denseLabels [[0, 1, 2], [0, 1]] [2, 1] ∧
      (List.Pairwise (fun s t => Disjoint s t)
          ((reconcile [[0, 1, 2], [0, 1]]).map positiveLabels) ∧
        allPositiveLabels (reconcile [[0, 1, 2], [0, 1]]) =
          Finset.Icc 1 (([2, 1] : List Nat).sum : Int)) :=
  have hd : List.Forall₂ denseLabels [[0, 1, 2], [0, 1]] [2, 1] :=
    .cons ⟨by decide, by decide⟩ (.cons ⟨by decide, by decide⟩ .nil)
  ⟨by decide, hd, reconcile_dense_partition.1 [[0, 1, 2], [0, 1]] [2, 1] (by decide) hd⟩

/-- C2: for nonnegative-integer label arrays (dense or not), the reconciliation
counter never decreases across iterations, each crop's reconciled positive
labels lie strictly above the cumulative sum of the maxima of the earlier
crops, and positive labels of distinct crops never collide. -/
theorem reconcile_counter_monotone_no_collision :
    ∀ (crops : List (List Int)),
      (∀ x ∈ crops, x ≠ []) → (∀ x ∈ crops, ∀ v ∈ x, 0 ≤ v) →
      (∀ i j : Nat, i ≤ j → counterAt crops i ≤ counterAt crops j) ∧
        (∀ (i : Nat) (x : List Int), (reconcile crops)[i]? = some x →
          ∀ w ∈ positiveLabels x, counterAt crops i < w) ∧
        List.Pairwise (fun s t => Disjoint s t) ((reconcile crops).map positiveLabels) := by
  intro crops h1 h2
  refine ⟨fun i j hij => counterAt_mono h1 h2 hij, ?_, ?_⟩
  · intro i x hx w hw
    rw [reconcile_getElem?] at hx
    cases hcr : crops[i]? with
    | none => rw [hcr] at hx; cases hx
    | some r =>
      rw [hcr, Option.map_some', Option.some_inj] at hx
      subst hx
      exact offset_pos_gt hw
  · have h := reconcileFrom_pairwise_disjoint 0 h1 h2
    simpa [reconcile] using h

/-- Witness for C2 at the claim's gap example: local labels `{1,3}` in the
first crop inflate the offset (to 3) but cause no collision. -/
theorem reconcile_counter_monotone_no_collision_witness :
    (∀ x ∈ ([[1, 3], [0, 1]] : List (List Int)), x ≠ []) ∧
      (∀ x ∈ ([[1, 3], [0, 1]] : List (List Int)), ∀ v ∈ x, 0 ≤ v) ∧
      ((∀ i j : Nat, i ≤ j → counterAt [[1, 3], [0, 1]] i ≤ counterAt [[1, 3], [0, 1]] j) ∧
        (∀ (i : Nat) (x : List Int), (reconcile [[1, 3], [0, 1]])[i]? = some x →
          ∀ w ∈ positiveLabels x, counterAt [[1, 3], [0, 1]] i < w) ∧
        List.Pairwise (fun s t => Disjoint s t)
          ((reconcile [[1, 3], [0, 1]]).map positiveLabels)) :=
  ⟨by decide, by decide,
    reconcile_counter_monotone_no_collision [[1, 3], [0, 1]] (by decide) (by decide)⟩

/-- C3: a pixel that is `0` before reconciliation is `0` after it, and more
generally any nonpositive pixel is left unchanged: the pass alters only
strictly positive values. -/
theorem reconcile_preserves_zero :
    ∀ (crops : List (List Int)) (i j : Nat),
      (pix crops i j = some 0 → pix (reconcile crops) i j = some 0) ∧
        (∀ v : Int, pix crops i j = some v → v ≤ 0 →
          pix (reconcile crops) i j = some v) := by
  intro crops i j
  have hmap := pix_reconcile crops i j
  constructor
  · intro h0
    rw [hmap, h0, Option.map_some']
    rw [offsetPos, if_neg (by omega)]
  · intro v hv hvle
    rw [hmap, hv, Option.map_some']
    rw [offsetPos, if_neg (by omega)]

/-- Witness for C3: the zero pixel of the second crop survives reconciliation. -/
theorem reconcile_preserves_zero_witness :
    pix [[0, 2], [3, 0]] 1 1 = some 0 ∧ pix (reconcile [[0, 2], [3, 0]]) 1 1 = some 0 :=
  ⟨by decide, (reconcile_preserves_zero [[0, 2], [3, 0]] 1 1).1 (by decide)⟩

/-- C10: for crops with nonnegative labels, the reconciliation pass preserves
within-crop label structure: two pixels of the same crop carry equal labels
after reconciliation iff they did before (the per-crop map is injective), so
segments are never merged or split inside a crop. -/
theorem reconcile_injective_within_crop :
    ∀ (crops : List (List Int)),
      (∀ x ∈ crops, x ≠ []) → (∀ x ∈ crops, ∀ v ∈ x, 0 ≤ v) →
      ∀ i j k : Nat,
        (pix (reconcile crops) i j = pix (reconcile crops) i k ↔
          pix crops i j = pix crops i k) := by
  intro crops h1 h2 i j k
  have hc : 0 ≤ counterAt crops i := counterAt_nonneg h1 h2 i
  have hnn : ∀ {l : Nat} {v : Int}, pix crops i l = some v → 0 ≤ v := by
    intro l v hv
    unfold pix at hv
    cases hcr : crops[i]? with
    | none => rw [hcr] at hv; cases hv
    | some r =>
      rw [hcr] at hv
      exact h2 r (List.getElem?_mem hcr) v (List.getElem?_mem hv)
  rw [pix_reconcile, pix_reconcile]
  cases hj : pix crops i j with
  | none =>
    cases hk : pix crops i k with
    | none => simp
    | some b => simp
  | some a =>
    cases hk : pix crops i k with
    | none => simp
    | some b =>
      simp only [Option.map_some', Option.some_inj]
      exact offsetPos_inj hc (hnn hj) (hnn hk)

/-- Witness for C10 on a concrete 2-crop input. -/
theorem reconcile_injective_within_crop_witness :
    (∀ x ∈ ([[1, 0], [2]] : List (List Int)), x ≠ []) ∧
      (∀ x ∈ ([[1, 0], [2]] : List (List Int)), ∀ v ∈ x, 0 ≤ v) ∧
      (pix (reconcile [[1, 0], [2]]) 0 0 = pix (reconcile [[1, 0], [2]]) 0 1 ↔
        pix [[1, 0], [2]] 0 0 = pix [[1, 0], [2]] 0 1) :=
  ⟨by decide, by decide,
    reconcile_injective_within_crop [[1, 0], [2]] (by decide) (by decide) 0 0 1⟩

/-! ## Claim theorems: watershed variant -/

/-- C4 counterexample: on the 1×1 image `[[1]]` with `thresh = 0` and
`geq = true`, the claimed foreground is the whole image, yet the mask the code
passes to `watershed` (and the `labels` restriction it passes to
`peak_local_max`) excludes that pixel: the code restricts these calls to the
*complement* of the thresholded set, not to it. -/
theorem watershed_foreground_counterexample :
    (watershedSegmentCalls arrC4 0 true).wsMaskArg 0 0 ≠
        (watershedClaimedCalls arrC4 0 true).wsMaskArg 0 0 ∧
      (watershedSegmentCalls arrC4 0 true).peakLabelsArg 0 0 ≠
        (watershedClaimedCalls arrC4 0 true).peakLabelsArg 0 0 := by
  constructor <;> decide

/-- C4 (amended): `_segment` forms the thresholded mask (pixels `>= thresh`
when `geq = true`, pixels `< thresh` when `geq = false`), treats it as the
background, and segments its complement: the distance transform is computed on
the complement, the 5×5 local maxima are restricted to the complement, the
connected maxima become the markers, and the watershed flood runs over the
complement, guided by the inverted input intensity. -/
theorem watershed_segment_calls_amended :
    ∀ (m n : Nat) (arr : Fin m → Fin n → ℚ) (thresh : ℚ) (geq : Bool),
      watershedSegmentCalls arr thresh geq = watershedAmendedCalls arr thresh geq := by
  intro m n arr thresh geq
  rfl

/-! ## Claim theorems: blob variant and orchestration -/

lemma parse_eq_none {sel : String} (h1 : sel ≠ "blob") (h2 : sel ≠ "watershed")
    (h3 : sel ≠ "tensorflow") : SegmentationBackend.parse sel = none := by
  unfold SegmentationBackend.parse
  rw [if_neg h1, if_neg h2, if_neg h3]

lemma runBackendAll_error {α β : Type} (f : α → Except String β) {l : List α}
    {x : α} {e : String} (hx : x ∈ l) (hf : f x = .error e) :
    ∃ msg, runBackendAll f l = Except.error msg := by
  induction l with
  | nil => cases hx
  | cons a l ih =>
    rcases List.mem_cons.mp hx with h | h
    · subst h
      exact ⟨e, by unfold runBackendAll; rw [hf]⟩
    · cases ha : f a with
      | error e' => exact ⟨e', by unfold runBackendAll; rw [ha]⟩
      | ok y =>
        rcases ih h with ⟨msg, hmsg⟩
        exact ⟨msg, by unfold runBackendAll; rw [ha, hmsg]⟩

/-- C8: for any sub-algorithm name other than `log`/`dog`/`doh`, the blob
variant fails with an unrecognized-method error naming the value, and the
result does not depend on the underlying detection routines (none is
invoked). -/
theorem blob_unrecognized_model :
    ∀ {m n : Nat} {β : Type} (model : String)
      (blobLog blobDog blobDoh blobLog2 blobDog2 blobDoh2 : (Fin m → Fin n → ℚ) → β)
      (invert : Bool) (img : Fin m → Fin n → ℚ),
      model ≠ "log" → model ≠ "dog" → model ≠ "doh" →
      blobSegment model blobLog blobDog blobDoh invert img =
          Except.error ("did not recognize self.model " ++ model) ∧
        blobSegment model blobLog blobDog blobDoh invert img =
          blobSegment model blobLog2 blobDog2 blobDoh2 invert img := by
  intro m n β model l1 d1 h1 l2 d2 h2 invert img hlog hdog hdoh
  unfold blobSegment
  rw [if_neg hlog, if_neg hdog, if_neg hdoh, if_neg hlog, if_neg hdog, if_neg hdoh]
  exact ⟨rfl, rfl⟩

/-- Witness for C8 at the concrete invalid name `"blb"`. -/
theorem blob_unrecognized_model_witness :
    ("blb" ≠ "log" ∧ "blb" ≠ "dog" ∧ "blb" ≠ "doh") ∧
      (blobSegment "blb" (fun _ => (0 : Int)) (fun _ => 0) (fun _ => 0) true
          (fun (_ : Fin 1) (_ : Fin 1) => (0 : ℚ)) =
          Except.error ("did not recognize self.model " ++ "blb") ∧
        blobSegment "blb" (fun _ => (0 : Int)) (fun _ => 0) (fun _ => 0) true
            (fun (_ : Fin 1) (_ : Fin 1) => (0 : ℚ)) =
          blobSegment "blb" (fun _ => (1 : Int)) (fun _ => 1) (fun _ => 1) true
            (fun (_ : Fin 1) (_ : Fin 1) => (0 : ℚ))) :=
  ⟨⟨by decide, by decide, by decide⟩,
    blob_unrecognized_model "blb" (fun _ => (0 : Int)) (fun _ => 0) (fun _ => 0)
      (fun _ => 1) (fun _ => 1) (fun _ => 1) true (fun _ _ => 0)
      (by decide) (by decide) (by decide)⟩

/-- C7: an unrecognized backend selector makes `segment` fail with the
"not implemented" configuration error naming the offending value, with an
empty container-effect trace: no crop is read and no layer is added. -/
theorem segment_unrecognized_backend :
    ∀ {α σ : Type} (cropEqually : List α)
      (backend : SegmentationBackend → α → Except String (List Int))
      (stitch : List (List Int) → σ) (layers : List (String × σ))
      (sel : String) (keyAdded : Option String),
      sel ≠ "blob" → sel ≠ "watershed" → sel ≠ "tensorflow" →
      segment cropEqually backend stitch layers sel keyAdded =
        (Except.error (SegErr.notImplemented sel), []) := by
  intro α σ cropEqually backend stitch layers sel keyAdded h1 h2 h3
  unfold segment
  rw [parse_eq_none h1 h2 h3]

/-- Witness for C7 at the concrete nonsense selector `"nonsense"`. -/
theorem segment_unrecognized_backend_witness :
    ("nonsense" ≠ "blob" ∧ "nonsense" ≠ "watershed" ∧ "nonsense" ≠ "tensorflow") ∧
      segment [()] (fun _ (_ : Unit) => Except.ok ([] : List Int)) (fun _ => ())
          ([] : List (String × Unit)) "nonsense" none =
        (Except.error (SegErr.notImplemented "nonsense"), []) :=
  ⟨⟨by decide, by decide, by decide⟩,
    segment_unrecognized_backend [()] (fun _ _ => Except.ok []) (fun _ => ()) []
      "nonsense" none (by decide) (by decide) (by decide)⟩

/-- C9: if the backend fails on any crop, `segment` aborts with a delegated
error after the crops were read and adds nothing to the container; and a
successful result is exactly the input layers plus one new stitched layer,
which exists only when every crop's backend invocation succeeded. -/
theorem segment_aborts_on_backend_failure :
    ∀ {α σ : Type} (cropEqually : List α)
      (backend : SegmentationBackend → α → Except String (List Int))
      (stitch : List (List Int) → σ) (layers : List (String × σ))
      (sel : String) (keyAdded : Option String),
      (∀ (mg : SegmentationBackend) (x : α) (e : String),
          SegmentationBackend.parse sel = some mg → x ∈ cropEqually →
          backend mg x = Except.error e →
          ∃ msg, segment cropEqually backend stitch layers sel keyAdded =
            (Except.error (SegErr.delegated msg), [SegEffect.cropEqually])) ∧
        (∀ c : List (String × σ),
          (segment cropEqually backend stitch layers sel keyAdded).1 = Except.ok c →
          ∃ (mg : SegmentationBackend) (labelCrops : List (List Int)),
            SegmentationBackend.parse sel = some mg ∧
              runBackendAll (backend mg) cropEqually = Except.ok labelCrops ∧
              c = layers ++
                [(keyAdded.getD ("segmented_" ++ mg.s), stitch (reconcile labelCrops))] ∧
              (segment cropEqually backend stitch layers sel keyAdded).2 =
                [SegEffect.cropEqually,
                  SegEffect.addImg (keyAdded.getD ("segmented_" ++ mg.s))]) := by
  intro α σ cropEqually backend stitch layers sel keyAdded
  constructor
  · intro mg x e hparse hx hf
    rcases runBackendAll_error (backend mg) hx hf with ⟨msg, hmsg⟩
    refine ⟨msg, ?_⟩
    simp only [segment, hparse, hmsg]
  · intro c hc
    cases hparse : SegmentationBackend.parse sel with
    | none =>
      simp only [segment, hparse] at hc
      cases hc
    | some mg =>
      cases hrun : runBackendAll (backend mg) cropEqually with
      | error e =>
        simp only [segment, hparse, hrun] at hc
        cases hc
      | ok labelCrops =>
        simp only [segment, hparse, hrun, Except.ok.injEq] at hc
        refine ⟨mg, labelCrops, rfl, hrun, hc.symm, ?_⟩
        simp only [segment, hparse, hrun]

/-- Witness for C9: a backend failing on the single crop aborts the call with
only the crop read recorded. -/
theorem segment_aborts_on_backend_failure_witness :
    (SegmentationBackend.parse "blob" = some SegmentationBackend.blob ∧
        () ∈ [()] ∧
        (fun (_ : SegmentationBackend) (_ : Unit) =>
            (Except.error "oom" : Except String (List Int))) SegmentationBackend.blob () =
          Except.error "oom") ∧
      ∃ msg,
        segment [()] (fun _ (_ : Unit) => (Except.error "oom" : Except String (List Int)))
            (fun _ => ()) ([] : List (String × Unit)) "blob" none =
          (Except.error (SegErr.delegated msg), [SegEffect.cropEqually]) :=
  ⟨⟨rfl, by decide, rfl⟩,
    (segment_aborts_on_backend_failure [()]
        (fun _ (_ : Unit) => (Except.error "oom" : Except String (List Int)))
        (fun _ => ()) ([] : List (String × Unit)) "blob" none).1
      SegmentationBackend.blob () "oom" rfl (by decide) rfl⟩

/-! ## Claim lemmas and theorems: segment_crops -/

lemma rowMajor_nodup (m n : Nat) : (rowMajor m n).Nodup :=
  (List.nodup_finRange m).product (List.nodup_finRange n)

lemma whereList_nodup {m n : Nat} (g : Fin m → Fin n → Int) (v : Int) :
    (whereList g v).Nodup :=
  (rowMajor_nodup m n).filter _

lemma mem_rowMajor {m n : Nat} (q : Fin m × Fin n) : q ∈ rowMajor m n := by
  rw [rowMajor, List.mem_product]
  exact ⟨List.mem_finRange q.1, List.mem_finRange q.2⟩

lemma whereList_toFinset {m n : Nat} (g : Fin m → Fin n → Int) (v : Int) :
    (whereList g v).toFinset = matchFinset g v := by
  ext q
  simp [whereList, matchFinset, List.mem_filter, mem_rowMajor q,
    Finset.mem_filter, List.mem_toFinset]

lemma whereList_length {m n : Nat} (g : Fin m → Fin n → Int) (v : Int) :
    (whereList g v).length = (matchFinset g v).card := by
  rw [← whereList_toFinset, List.toFinset_card_of_nodup (whereList_nodup g v)]

lemma whereList_sum {m n : Nat} (g : Fin m → Fin n → Int) (v : Int)
    (f : Fin m × Fin n → ℚ) :
    ((whereList g v).map f).sum = ∑ p ∈ matchFinset g v, f p := by
  rw [← whereList_toFinset, List.sum_toFinset f (whereList_nodup g v)]

/-- The list-based `np.mean` of the matching row indices is the set-based
centroid row of the claim. -/
lemma npMeanRow_eq_centroidRow {m n : Nat} (g : Fin m → Fin n → Int) (v : Int) :
    npMeanRow g v = centroidRow g v := by
  rw [npMeanRow, centroidRow, whereList_sum, whereList_length]

/-- The list-based `np.mean` of the matching column indices is the set-based
centroid column of the claim. -/
lemma npMeanCol_eq_centroidCol {m n : Nat} (g : Fin m → Fin n → Int) (v : Int) :
    npMeanCol g v = centroidCol g v := by
  rw [npMeanCol, centroidCol, whereList_sum, whereList_length]

/-! Concrete evaluations on the two example images. -/

lemma segLabels_gThirds : segLabels gThirds = [1] := by
  rw [segLabels]
  have h : ((Finset.univ : Finset (Fin 2 × Fin 2)).image
      (fun p => gThirds p.1 p.2)).erase 0 = {1} := by decide
  rw [h]
  exact Finset.sort_singleton _ 1

lemma whereList_gThirds : whereList gThirds 1 = [(0, 0), (1, 0), (1, 1)] := by
  decide

lemma npMeanRow_gThirds : npMeanRow gThirds 1 = 2 / 3 := by
  rw [npMeanRow, whereList_gThirds]
  norm_num

lemma npMeanCol_gThirds : npMeanCol gThirds 1 = 1 / 3 := by
  rw [npMeanCol, whereList_gThirds]
  norm_num

lemma segment_crops_gThirds : segment_crops gThirds = [⟨1, 0, 0⟩] := by
  rw [segment_crops, segLabels_gThirds, List.map_cons, List.map_nil,
    npMeanRow_gThirds, npMeanCol_gThirds]
  have h1 : pyInt (2 / 3) = 0 := by norm_num [pyInt]
  have h2 : pyInt (1 / 3) = 0 := by norm_num [pyInt]
  rw [h1, h2]

lemma segLabels_gSingle : segLabels gSingle = [1] := by
  rw [segLabels]
  have h : ((Finset.univ : Finset (Fin 6 × Fin 11)).image
      (fun p => gSingle p.1 p.2)).erase 0 = {1} := by decide
  rw [h]
  exact Finset.sort_singleton _ 1

lemma whereList_gSingle : whereList gSingle 1 = [(5, 10)] := by
  decide

lemma npMeanRow_gSingle : npMeanRow gSingle 1 = 5 := by
  rw [npMeanRow, whereList_gSingle]
  norm_num [show ((5 : Fin 6) : Nat) = 5 from rfl]

lemma npMeanCol_gSingle : npMeanCol gSingle 1 = 10 := by
  rw [npMeanCol, whereList_gSingle]
  norm_num [show ((10 : Fin 11) : Nat) = 10 from rfl]

lemma segment_crops_gSingle : segment_crops gSingle = [⟨1, 5, 10⟩] := by
  rw [segment_crops, segLabels_gSingle, List.map_cons, List.map_nil,
    npMeanRow_gSingle, npMeanCol_gSingle]
  have h1 : pyInt 5 = 5 := by norm_num [pyInt]
  have h2 : pyInt 10 = 10 := by norm_num [pyInt]
  rw [h1, h2]

/-- C5 counterexample: on `gThirds`, whose only segment has centroid row 2/3,
the centre `segment_crops` requests is 0, but the rounded centroid row is 1:
the code truncates (`int()`), it does not round. -/
theorem segment_crops_rounding_counterexample :
    (segment_crops gThirds).map CropRequest.x ≠ [round (centroidRow gThirds 1)] := by
  have hc : centroidRow gThirds 1 = 2 / 3 := by
    rw [← npMeanRow_eq_centroidRow, npMeanRow_gThirds]
  rw [segment_crops_gThirds, hc, List.map_cons, List.map_nil]
  have hr : round ((2 : ℚ) / 3) = 1 := by norm_num [round_eq]
  rw [hr]
  simp

/-- C5 (amended): every requested crop is centred at the truncated-toward-zero
(integer) centroid — the mean row and column index of the pixels carrying the
label — and for a label occupying the single pixel (row 5, col 10) the
computed centre is exactly (5, 10). -/
theorem segment_crops_truncated_centroid :
    (∀ (m n : Nat) (g : Fin m → Fin n → Int) (r : CropRequest),
        r ∈ segment_crops g →
        r.x = pyInt (centroidRow g r.label) ∧ r.y = pyInt (centroidCol g r.label)) ∧
      segment_crops gSingle = [⟨1, 5, 10⟩] ∧
      centroidRow gSingle 1 = 5 ∧ centroidCol gSingle 1 = 10 := by
  refine ⟨?_, segment_crops_gSingle, ?_, ?_⟩
  · intro m n g r hr
    rcases List.mem_map.mp hr with ⟨v, hv, rfl⟩
    constructor
    · simp only [npMeanRow_eq_centroidRow]
    · simp only [npMeanCol_eq_centroidCol]
  · rw [← npMeanRow_eq_centroidRow]
    exact npMeanRow_gSingle
  · rw [← npMeanCol_eq_centroidCol]
    exact npMeanCol_gSingle

/-- Witness for C5 (amended) at the single-pixel image. -/
theorem segment_crops_truncated_centroid_witness :
    (⟨1, 5, 10⟩ : CropRequest) ∈ segment_crops gSingle ∧
      ((⟨1, 5, 10⟩ : CropRequest).x = pyInt (centroidRow gSingle (1 : Int)) ∧
        (⟨1, 5, 10⟩ : CropRequest).y = pyInt (centroidCol gSingle (1 : Int))) :=
  ⟨by rw [segment_crops_gSingle]; exact List.mem_singleton.mpr rfl,
    segment_crops_truncated_centroid.1 6 11 gSingle ⟨1, 5, 10⟩
      (by rw [segment_crops_gSingle]; exact List.mem_singleton.mpr rfl)⟩

/-- C6: `segment_crops` returns exactly one crop per distinct nonzero label
(with the all-zero image yielding the empty sequence), ordered by strictly
ascending label value. -/
theorem segment_crops_count_and_order :
    ∀ (m n : Nat) (g : Fin m → Fin n → Int),
      (segment_crops g).length =
          (((Finset.univ : Finset (Fin m × Fin n)).image (fun p => g p.1 p.2)).erase 0).card ∧
        List.Sorted (· < ·) ((segment_crops g).map CropRequest.label) ∧
        segment_crops (fun (_ : Fin m) (_ : Fin n) => (0 : Int)) = [] := by
  intro m n g
  refine ⟨?_, ?_, ?_⟩
  · rw [segment_crops, List.length_map, segLabels, Finset.length_sort]
  · have h : (segment_crops g).map CropRequest.label = segLabels g := by
      rw [segment_crops, List.map_map]
      exact List.map_id _
    rw [h, segLabels]
    exact Finset.sort_sorted_lt _
  · have h0 : (((Finset.univ : Finset (Fin m × Fin n)).image
        (fun _ => (0 : Int))).erase 0) = ∅ := by
      have hsub : ((Finset.univ : Finset (Fin m × Fin n)).image
          (fun _ => (0 : Int))) ⊆ {0} :=
        Finset.image_subset_iff.mpr (fun p _ => Finset.mem_singleton.mpr rfl)
      rcases Finset.subset_singleton_iff.mp hsub with h | h
      · rw [h, Finset.erase_empty]
      · rw [h, Finset.erase_singleton]
    rw [segment_crops, segLabels, h0, Finset.sort_empty, List.map_nil]

end SquidpySegment
